import Mathlib

/-!
# quic-go: packet protection, retransmission classifier, request validation

A shallow embedding of
* `crypto/null_aead.go` (`nullAEAD.Open`, `nullAEAD.Seal`) together with the library pieces
  it calls (`encoding/binary` little-endian accessors, the built-in `copy`, the FNV-1a
  128-bit hash of package `fnv128a`),
* `ackhandler/retransmittable.go` over the frame interface of `frames/frame.go`,
* `congestion/stats.go`,
* `generatePRData` of the integration tests,
* `RoundTripper.RoundTrip` and `validMethod` of `h2quic/roundtrip.go`,

followed by theorems about them.

Go slices are modelled as lists with value semantics.  A destination slice is modelled by
the bytes it can be resliced to, that is, by `dst[:cap(dst)]`.
-/

set_option linter.unusedVariables false

namespace QuicGo

/-! ## Data model -/

/-- One element of a Go `[]byte`. -/
abbrev Byte := Fin 256

/-- Modelled from the spec: `protocol.Perspective` is declared outside `src/`; the spec gives
`Perspective ∈ {Client, Server}`.  The constructors keep the Go constant names. -/
inductive Perspective where
  | PerspectiveServer
  | PerspectiveClient
  deriving DecidableEq, Repr

/-- The other endpoint's role. -/
def Perspective.opposite : Perspective → Perspective
  | .PerspectiveServer => .PerspectiveClient
  | .PerspectiveClient => .PerspectiveServer

/-- The Go type `protocol.VersionNumber` is a signed integer. -/
abbrev VersionNumber := Int

/-- Modelled from the spec: the constant `protocol.Version37` is declared outside `src/`;
it is the salting threshold, version 37. -/
def Version37 : VersionNumber := 37

/-- The Go type `protocol.PacketNumber` is an unsigned 64-bit integer; the protector never
reads it. -/
abbrev PacketNumber := Nat

/-- The struct `nullAEAD` of `crypto/null_aead.go`. -/
structure nullAEAD where
  perspective : Perspective
  version : VersionNumber
  deriving DecidableEq, Repr

/-- The constructor `NewNullAEAD`. -/
def NewNullAEAD (p : Perspective) (v : VersionNumber) : nullAEAD :=
  { perspective := p, version := v }

/-! ## Library functions used by the protector -/

/-- The Go conversion `byte(v)`: the low eight bits. -/
def toByte (v : Nat) : Byte := ⟨v % 256, Nat.mod_lt v (by decide)⟩

/-- The Go conversion `[]byte(s)` for an ASCII string literal. -/
def bytesOfString (s : String) : List Byte :=
  s.data.map (fun c => toByte c.toNat)

/-- Modelled from the spec: package `fnv128a` is imported from outside `src/`; its hash is
FNV-1a with 128 bits.  This is the FNV-1a 128-bit offset basis, the state after `New()`. -/
def fnvOffset128 : Nat := 0x6c62272e07bb014262b821756295c58d

/-- Modelled from the spec: the FNV 128-bit prime, `2^88 + 0x13b`. -/
def fnvPrime128 : Nat := 0x0000000001000000000000000000013b

/-- Modelled from the spec: one FNV-1a round of `hash.Write`, absent from `src/`: xor the
octet into the bottom of the state, then multiply by the prime modulo `2^128`. -/
def fnvWriteByte (s : Nat) (v : Byte) : Nat :=
  ((s ^^^ v.val) * fnvPrime128) % 2 ^ 128

/-- Modelled from the spec: `hash.Write(data)` of package `fnv128a`, absent from `src/`:
the FNV-1a round over every octet, first to last. -/
def fnvWrite (s : Nat) (data : List Byte) : Nat :=
  data.foldl fnvWriteByte s

/-- Modelled from the spec: `hash.Sum128()` of package `fnv128a`, absent from `src/`: the
pair (high 64 bits, low 64 bits) of the state. -/
def fnvSum128 (s : Nat) : Nat × Nat :=
  ((s / 2 ^ 64) % 2 ^ 64, s % 2 ^ 64)

/-- Little-endian value of a sequence of bytes. -/
def leValue : List Byte → Nat
  | [] => 0
  | b :: bs => b.val + 256 * leValue bs

/-- The function `binary.LittleEndian.Uint64(b)`: reads `b[0..7]`.  Go panics when `b` has
fewer than 8 bytes; `Open` only calls it behind its length guard. -/
def Uint64 (b : List Byte) : Nat := leValue (b.take 8)

/-- The function `binary.LittleEndian.Uint32(b)`: reads `b[0..3]`. -/
def Uint32 (b : List Byte) : Nat := leValue (b.take 4)

/-- The function `binary.LittleEndian.PutUint64(b, v)`: `b[i] = byte(v >> (8*i))` for
`i = 0..7`. -/
def PutUint64 (b : List Byte) (v : Nat) : List Byte :=
  (List.range 8).foldl (fun acc i => acc.set i (toByte (v >>> (8 * i)))) b

/-- The function `binary.LittleEndian.PutUint32(b, v)`: `b[i] = byte(v >> (8*i))` for
`i = 0..3`. -/
def PutUint32 (b : List Byte) (v : Nat) : List Byte :=
  (List.range 4).foldl (fun acc i => acc.set i (toByte (v >>> (8 * i)))) b

/-- The Go built-in `copy(dst, src)`: overwrites the first `min(len(dst), len(src))` bytes
of `dst`. -/
def goCopy (dst src : List Byte) : List Byte :=
  src.take (min dst.length src.length) ++ dst.drop (min dst.length src.length)

/-! ## The protector -/

/-- The error text of the length check in `Open`. -/
def errTooShort : String := "NullAEAD: ciphertext cannot be less than 12 bytes long"

/-- The error text of the tag check in `Open`. -/
def errAuth : String := "NullAEAD: failed to authenticate received data"

/-- The method `nullAEAD.Open`.  The destination `dst` is never read. -/
def Open (n : nullAEAD) (dst src : List Byte) (packetNumber : PacketNumber)
    (associatedData : List Byte) : Except String (List Byte) :=
  if src.length < 12 then
    .error errTooShort
  else
    let hash := fnvOffset128
    let hash := fnvWrite hash associatedData
    let hash := fnvWrite hash (src.drop 12)
    let hash :=
      if n.version ≥ Version37 then
        if n.perspective = Perspective.PerspectiveServer then
          fnvWrite hash (bytesOfString "Client")
        else
          fnvWrite hash (bytesOfString "Server")
      else hash
    let (testHigh, testLow) := fnvSum128 hash
    let low := Uint64 src
    let high := Uint32 (src.drop 8)
    if (testHigh &&& 0xffffffff) % 2 ^ 32 ≠ high ∨ testLow ≠ low then
      .error errAuth
    else
      .ok (src.drop 12)

/-- The method `nullAEAD.Seal`.  The argument `dst` stands for `dst[:cap(dst)]`. -/
def Seal (n : nullAEAD) (dst src : List Byte) (packetNumber : PacketNumber)
    (associatedData : List Byte) : List Byte :=
  let dst :=
    if dst.length < 12 + src.length then List.replicate (12 + src.length) (0 : Byte)
    else dst.take (12 + src.length)
  let hash := fnvOffset128
  let hash := fnvWrite hash associatedData
  let hash := fnvWrite hash src
  let hash :=
    if n.version ≥ Version37 then
      if n.perspective = Perspective.PerspectiveServer then
        fnvWrite hash (bytesOfString "Server")
      else
        fnvWrite hash (bytesOfString "Client")
    else hash
  let (high, low) := fnvSum128 hash
  let dst := dst.take 12 ++ goCopy (dst.drop 12) src
  let dst := PutUint64 dst low
  let dst := dst.take 8 ++ PutUint32 (dst.drop 8) (high % 2 ^ 32)
  dst

/-! ## Tampering, used to state the detection properties -/

/-- Flip bit `j` of a byte. -/
def flipBitOfByte (b : Byte) (j : Nat) : Byte := toByte (b.val ^^^ 2 ^ j)

/-- Flip bit `j` of the byte at position `i` of a packet. -/
def flipBit (c : List Byte) (i j : Nat) : List Byte :=
  c.set i (flipBitOfByte (c.getD i 0) j)

/-! ## Auxiliary definitions for the statements -/

/-- The hash state `Open` holds when it calls `Sum128`: associated data, then `src[12:]`,
then from version 37 on the name of the remote role. -/
def openHash (n : nullAEAD) (src associatedData : List Byte) : Nat :=
  if n.version ≥ Version37 then
    if n.perspective = Perspective.PerspectiveServer then
      fnvWrite (fnvWrite (fnvWrite fnvOffset128 associatedData) (src.drop 12))
        (bytesOfString "Client")
    else
      fnvWrite (fnvWrite (fnvWrite fnvOffset128 associatedData) (src.drop 12))
        (bytesOfString "Server")
  else fnvWrite (fnvWrite fnvOffset128 associatedData) (src.drop 12)

/-- The hash state `Seal` holds when it calls `Sum128`: associated data, then `src`, then
from version 37 on the name of the sealer's own role. -/
def sealHash (n : nullAEAD) (src associatedData : List Byte) : Nat :=
  if n.version ≥ Version37 then
    if n.perspective = Perspective.PerspectiveServer then
      fnvWrite (fnvWrite (fnvWrite fnvOffset128 associatedData) src) (bytesOfString "Server")
    else
      fnvWrite (fnvWrite (fnvWrite fnvOffset128 associatedData) src) (bytesOfString "Client")
  else fnvWrite (fnvWrite fnvOffset128 associatedData) src

/-- The little-endian bytes `byte(v)`, `byte(v >> 8)`, ... of the `k` low bytes of `v`. -/
def leBytes : Nat → Nat → List Byte
  | 0, _ => []
  | k + 1, v => toByte v :: leBytes k (v / 256)

/-- The 12 tag bytes of a hash state: the low 64 bits in little-endian order, then the low
32 bits of the high 64 bits in little-endian order. -/
def tagBytes (s : Nat) : List Byte :=
  leBytes 8 (s % 2 ^ 64) ++ leBytes 4 ((s / 2 ^ 64) % 2 ^ 32)

/-- The role salt of the spec: empty below version 37, from version 37 on the 6-byte ASCII
name of the given role. -/
def roleSalt (p : Perspective) (v : VersionNumber) : List Byte :=
  if v < 37 then []
  else
    match p with
    | .PerspectiveServer => bytesOfString "Server"
    | .PerspectiveClient => bytesOfString "Client"

/-- FNV-1a 128 of a message, from the initial state. -/
def fnv128a (data : List Byte) : Nat := fnvWrite fnvOffset128 data

/-- A packet that a version-36 protector accepts with associated data `assoc`: the tag of
`assoc ++ hello` followed by `hello`. -/
def samplePacket : List Byte :=
  [148, 229, 103, 154, 108, 0, 137, 109, 3, 119, 128, 133, 104, 101, 108, 108, 111]

/-- The associated data going with `samplePacket`. -/
def sampleAssoc : List Byte := bytesOfString "assoc"

/-! ## Frames and the retransmission classifier (`frames`, `ackhandler`) -/

/-- The struct `AckRange` of `frames/ack_range.go`. -/
structure AckRange where
  FirstPacketNumber : PacketNumber
  LastPacketNumber : PacketNumber
  deriving DecidableEq, Repr

/-- Modelled from the spec: the struct `frames.StreamFrame` is declared outside `src/`; the
fields are those its log line in `frames/log_test.go` shows. -/
structure StreamFrame where
  StreamID : Nat
  FinBit : Bool
  Offset : Nat
  Data : List Byte
  deriving DecidableEq, Repr

/-- Modelled from the spec: the struct `frames.AckFrame` is declared outside `src/`; the spec
gives `{LargestAcked, LowestAcked, AckRanges, DelayTime}`. -/
structure AckFrame where
  LargestAcked : PacketNumber
  LowestAcked : PacketNumber
  AckRanges : List AckRange
  DelayTime : Int
  deriving DecidableEq, Repr

/-- Modelled from the spec: the struct `frames.StopWaitingFrame` is declared outside `src/`;
the spec gives `{LeastUnacked, PacketNumberLen}`. -/
structure StopWaitingFrame where
  LeastUnacked : PacketNumber
  PacketNumberLen : Nat
  deriving DecidableEq, Repr

/-- Modelled from the spec: the struct `frames.RstStreamFrame` is declared outside `src/`; the
fields are those its log line in `frames/log_test.go` shows. -/
structure RstStreamFrame where
  StreamID : Nat
  ErrorCode : Nat
  ByteOffset : Nat
  deriving DecidableEq, Repr

/-- A value of the interface `frames.Frame` (`frames/frame.go`), by its dynamic type: a
pointer to one of the four frame structs above, or any other implementation of the
interface, named by its type. -/
inductive Frame where
  | Stream (f : StreamFrame)
  | Ack (f : AckFrame)
  | StopWaiting (f : StopWaitingFrame)
  | RstStream (f : RstStreamFrame)
  | Other (typeName : String)
  deriving DecidableEq, Repr

/-- The function `isFrameRetransmittable` of `ackhandler/retransmittable.go`: a type switch
with the cases `*frames.StopWaitingFrame`, `*frames.AckFrame` and `default`. -/
def isFrameRetransmittable (f : Frame) : Bool :=
  match f with
  | .StopWaiting _ => false
  | .Ack _ => false
  | _ => true

/-- The function `stripNonRetransmittableFrames` of `ackhandler/retransmittable.go`: appends
every retransmittable frame, in order, to an initially empty slice. -/
def stripNonRetransmittableFrames (fs : List Frame) : List Frame :=
  fs.foldl (fun res f => if isFrameRetransmittable f then res ++ [f] else res) []

/-! ## Loss statistics (`congestion`) -/

/-- The struct `connectionStats` of `congestion/stats.go`.  The two field types are declared
outside `src/`; the spec calls them unsigned counts. -/
structure connectionStats where
  slowstartPacketsLost : Nat
  slowstartBytesLost : Nat
  deriving DecidableEq, Repr

/-- Modelled from the spec: the code that updates `connectionStats` on a `Lost` transition is
not under `src/`.  The spec: if the congestion controller reports slow-start, the packet
counter increments by one and the byte counter by the record's `ByteCount`; outside
slow-start both are untouched. -/
def onPacketLost (inSlowStart : Bool) (byteCount : Nat) (s : connectionStats) :
    connectionStats :=
  if inSlowStart then
    { slowstartPacketsLost := s.slowstartPacketsLost + 1,
      slowstartBytesLost := s.slowstartBytesLost + byteCount }
  else s

/-- A run of `Lost` transitions, each with the phase the controller reports and the byte
count of the lost record. -/
def onPacketsLost (events : List (Bool × Nat)) (s : connectionStats) : connectionStats :=
  events.foldl (fun st e => onPacketLost e.1 e.2 st) s

/-! ## Pseudo-random test data (`integrationtests`) -/

/-- One pass of the loop body of `generatePRData`: `seed = seed * 48271 % 2147483647` on
`uint64`, the product taken modulo `2^64`. -/
def nextSeed (seed : Nat) : Nat := (seed * 48271 % 2 ^ 64) % 2147483647

/-- The function `generatePRData` of `integrationtests/integrationtests_suite_test.go`.  For
a negative length `make` panics, which is the result `none`. -/
def generatePRData (l : Int) : Option (List Byte) :=
  if l < 0 then none
  else
    let res := List.replicate l.toNat (0 : Byte)
    let seed : Nat := 1
    some ((List.range l.toNat).foldl
      (fun (st : List Byte × Nat) i => ((st.1.set i (toByte (nextSeed st.2))), nextSeed st.2))
      (res, seed)).1

/-- The value of `seed` after `k` passes of the loop of `generatePRData`. -/
def seedAfter : Nat → Nat
  | 0 => 1
  | k + 1 => nextSeed (seedAfter k)

/-- The Lehmer sequence of the claim: element `i` is `48271^(i+1) mod 2147483647`, as a
byte. -/
def lehmerBytes (l : Nat) : List Byte :=
  (List.range l).map (fun i => toByte (48271 ^ (i + 1) % 2147483647))

/-! ## The HTTP round tripper (`h2quic`) -/

/-- Modelled from the spec: the table `isTokenTable` of package `httplex` (outside `src/`):
the entries set to true are `!#$%&'*+-.^_|~`, the backquote, the digits and the letters. -/
def isTokenTable (i : Nat) : Bool :=
  decide (i ∈ [33, 35, 36, 37, 38, 39, 42, 43, 45, 46, 48, 49, 50, 51, 52, 53, 54, 55, 56, 57,
    65, 66, 67, 68, 69, 70, 71, 72, 73, 74, 75, 76, 77, 78, 79, 80, 81, 82, 83, 84, 85, 86, 87,
    88, 89, 90, 94, 95, 96, 97, 98, 99, 100, 101, 102, 103, 104, 105, 106, 107, 108, 109, 110,
    111, 112, 113, 114, 115, 116, 117, 118, 119, 120, 121, 122, 124, 126])

/-- Modelled from the spec: the function `httplex.IsTokenRune` (outside `src/`):
`i < len(isTokenTable) && isTokenTable[i]`, the table having 127 entries. -/
def IsTokenRune (r : Char) : Bool :=
  decide (r.toNat < 127) && isTokenTable r.toNat

/-- The function `isNotToken` of `h2quic/roundtrip.go`. -/
def isNotToken (r : Char) : Bool := !IsTokenRune r

/-- The function `strings.IndexFunc(s, f)` on the runes from byte offset `start` on: the byte
index of the first rune satisfying `f`, or `-1`. -/
def IndexFuncFrom (f : Char → Bool) : List Char → Nat → Int
  | [], _ => -1
  | c :: cs, start => if f c then (start : Int) else IndexFuncFrom f cs (start + c.utf8Size)

/-- The function `strings.IndexFunc(s, f)`. -/
def IndexFunc (s : String) (f : Char → Bool) : Int := IndexFuncFrom f s.data 0

/-- The function `validMethod` of `h2quic/roundtrip.go`; `len(method)` is the length in
bytes. -/
def validMethod (method : String) : Bool :=
  decide (method.utf8ByteSize > 0) && decide (IndexFunc method isNotToken = -1)

/-- The separators of the grammar quoted in `validMethod`:
`( ) < > @ , ; : \ " / [ ] ? =`, the two braces, space and horizontal tab. -/
def isSeparator (n : Nat) : Bool :=
  decide (n ∈ [40, 41, 60, 62, 64, 44, 59, 58, 92, 34, 47, 91, 93, 63, 61, 123, 125, 32, 9])

/-- The grammar quoted in `validMethod`: a token character is any CHAR (octets 0 to 127)
except the CTLs (octets 0 to 31 and 127) and the separators. -/
def isTokenChar (c : Char) : Bool :=
  decide (c.toNat ≤ 127) && !(decide (c.toNat ≤ 31) || decide (c.toNat = 127)) &&
    !isSeparator c.toNat

/-- Modelled from the spec: the function `httplex.ValidHeaderFieldName` (outside `src/`): the
name is not empty and all its runes are token runes. -/
def ValidHeaderFieldName (v : String) : Bool :=
  decide (v.utf8ByteSize ≠ 0) && v.data.all IsTokenRune

/-- Modelled from the spec: the function `httplex.ValidHeaderFieldValue` (outside `src/`): no
octet is a control character other than space and tab.  The octets of a rune above 127 are
all above 127, so the test is made on the runes. -/
def ValidHeaderFieldValue (v : String) : Bool :=
  v.data.all (fun c =>
    !((decide (c.toNat < 32) || decide (c.toNat = 127)) &&
      !(decide (c.toNat = 32) || decide (c.toNat = 9))))

/-- The fields of `url.URL` that `RoundTrip` reads. -/
structure URL where
  Scheme : String
  Host : String
  deriving DecidableEq, Repr

/-- A request body: an `io.ReadCloser`, of which only the number of `Close` calls it has
received is kept. -/
structure ReadCloser where
  closeCalls : Nat
  deriving DecidableEq, Repr

/-- The fields of `http.Request` that `RoundTrip` reads; `none` is Go's `nil`.  The header
map is the list of its entries in the order the `range` loop visits them. -/
structure Request where
  Method : String
  URL : Option URL
  Header : Option (List (String × List String))
  Body : Option ReadCloser
  deriving DecidableEq, Repr

/-- The errors `RoundTrip` creates, each with the arguments of its format string. -/
inductive RoundTripError where
  | nilURL
  | noHost
  | nilHeader
  | invalidHeaderFieldName (k : String)
  | invalidHeaderFieldValue (v k : String)
  | unsupportedScheme (scheme : String)
  | invalidMethod (method : String)
  deriving DecidableEq, Repr

/-- What `RoundTrip` does with a request: return one of its own errors, or call
`r.getClient(hostname).RoundTrip(req)`. -/
inductive RoundTripResult where
  | error (e : RoundTripError)
  | client (hostname : String)
  deriving DecidableEq, Repr

/-- The function `closeRequestBody` of `h2quic/roundtrip.go`. -/
def closeRequestBody (req : Request) : Request :=
  match req.Body with
  | some b => { req with Body := some { closeCalls := b.closeCalls + 1 } }
  | none => req

/-- The inner loop of `RoundTrip` over the values of one header field: the first invalid
value, if any. -/
def firstInvalidValue (vv : List String) : Option String :=
  vv.find? (fun v => !ValidHeaderFieldValue v)

/-- The loop of `RoundTrip` over the header map: the error of its first `return`, if it
returns. -/
def headerError : List (String × List String) → Option RoundTripError
  | [] => none
  | (k, vv) :: rest =>
    if !ValidHeaderFieldName k then some (.invalidHeaderFieldName k)
    else
      match firstInvalidValue vv with
      | some v => some (.invalidHeaderFieldValue v k)
      | none => headerError rest

/-- The method `RoundTripper.RoundTrip` of `h2quic/roundtrip.go`, returning its result and
the request with the state of its body.  The functions `authorityAddr` and
`hostnameFromRequest` are declared outside `src/` and are parameters. -/
def RoundTrip (authorityAddr : String → String → String)
    (hostnameFromRequest : Request → String) (req : Request) : RoundTripResult × Request :=
  match req.URL with
  | none => (.error .nilURL, closeRequestBody req)
  | some url =>
    if url.Host = "" then (.error .noHost, closeRequestBody req)
    else
      match req.Header with
      | none => (.error .nilHeader, closeRequestBody req)
      | some header =>
        if url.Scheme = "https" then
          match headerError header with
          | some e => (.error e, req)
          | none =>
            if req.Method ≠ "" ∧ ¬ (validMethod req.Method = true) then
              (.error (.invalidMethod req.Method), closeRequestBody req)
            else
              (.client (authorityAddr "https" (hostnameFromRequest req)), req)
        else
          (.error (.unsupportedScheme url.Scheme), closeRequestBody req)

/-- The requests the claim about `RoundTrip` calls rejected: nil URL, empty URL host, nil
header map, a scheme other than `https`, an invalid header field name or value, or a
non-empty method that is not a valid token. -/
def rejectedRequest (req : Request) : Prop :=
  req.URL = none ∨ (∃ u, req.URL = some u ∧ u.Host = "") ∨ req.Header = none ∨
    (∃ u, req.URL = some u ∧ u.Scheme ≠ "https") ∨
    (∃ h, req.Header = some h ∧ ∃ kv ∈ h,
      ValidHeaderFieldName kv.1 = false ∨ ∃ v ∈ kv.2, ValidHeaderFieldValue v = false) ∨
    (req.Method ≠ "" ∧ validMethod req.Method = false)

/-- A request with a body, an `https` URL and a header field name containing a space. -/
def requestBadName : Request :=
  { Method := "GET", URL := some { Scheme := "https", Host := "example.com" },
    Header := some [("bad name", ["v"])], Body := some { closeCalls := 0 } }

/-- A request with a body, an `https` URL and a header field value containing a line
feed. -/
def requestBadValue : Request :=
  { Method := "GET", URL := some { Scheme := "https", Host := "example.com" },
    Header := some [("name", ["v\n"])], Body := some { closeCalls := 0 } }

/-- A request with a body and an `http` URL. -/
def requestBadScheme : Request :=
  { Method := "GET", URL := some { Scheme := "http", Host := "example.com" },
    Header := some [("name", ["v"])], Body := some { closeCalls := 0 } }

/-! ## Little-endian encoding -/

theorem leBytes_length (k v : Nat) : (leBytes k v).length = k := by
  induction k generalizing v with
  | zero => rfl
  | succ k ih => simp [leBytes, ih]

theorem tagBytes_length (s : Nat) : (tagBytes s).length = 12 := by
  simp [tagBytes, leBytes_length]

theorem leValue_leBytes (k v : Nat) : leValue (leBytes k v) = v % 256 ^ k := by
  induction k generalizing v with
  | zero => simp [leBytes, leValue, Nat.mod_one]
  | succ k ih =>
    simp only [leBytes, leValue, ih, toByte]
    rw [pow_succ, Nat.mul_comm (256 ^ k) 256, Nat.mod_mul]

theorem leBytes_leValue (l : List Byte) : leBytes l.length (leValue l) = l := by
  induction l with
  | nil => rfl
  | cons b bs ih =>
    have hb := b.isLt
    have h1 : (b.val + 256 * leValue bs) / 256 = leValue bs := by omega
    have h2 : toByte (b.val + 256 * leValue bs) = b := by
      apply Fin.ext
      simp only [toByte]
      omega
    simp only [List.length_cons, leBytes, leValue, h1, h2, ih]

theorem PutUint64_eq (b : List Byte) (v : Nat) (h : 8 ≤ b.length) :
    PutUint64 b v = leBytes 8 v ++ b.drop 8 := by
  match b, h with
  | a0 :: a1 :: a2 :: a3 :: a4 :: a5 :: a6 :: a7 :: rest, _ =>
    simp [PutUint64, List.range, List.range.loop, leBytes, Nat.shiftRight_eq_div_pow,
      Nat.div_div_eq_div_mul]

theorem PutUint32_eq (b : List Byte) (v : Nat) (h : 4 ≤ b.length) :
    PutUint32 b v = leBytes 4 v ++ b.drop 4 := by
  match b, h with
  | a0 :: a1 :: a2 :: a3 :: rest, _ =>
    simp [PutUint32, List.range, List.range.loop, leBytes, Nat.shiftRight_eq_div_pow,
      Nat.div_div_eq_div_mul]

theorem take_twelve_split (c : List Byte) :
    c.take 12 = c.take 8 ++ (c.drop 8).take 4 := by
  have h : c.take 12 = (c.take 12).take 8 ++ (c.take 12).drop 8 :=
    (List.take_append_drop 8 (c.take 12)).symm
  rw [h, List.take_take, List.drop_take]
  rfl

/-- The two stored tag halves equal given values exactly when the first 12 bytes are the
little-endian bytes of these values. -/
theorem stored_tag_eq_iff (c : List Byte) (low high : Nat) (hc : 12 ≤ c.length)
    (hl : low < 2 ^ 64) (hh : high < 2 ^ 32) :
    (Uint64 c = low ∧ Uint32 (c.drop 8) = high) ↔
      c.take 12 = leBytes 8 low ++ leBytes 4 high := by
  have l8 : (c.take 8).length = 8 := by rw [List.length_take]; omega
  have l4 : ((c.drop 8).take 4).length = 4 := by
    rw [List.length_take, List.length_drop]; omega
  rw [take_twelve_split]
  constructor
  · rintro ⟨h1, h2⟩
    have e1 := leBytes_leValue (c.take 8)
    have e2 := leBytes_leValue ((c.drop 8).take 4)
    rw [l8] at e1
    rw [l4] at e2
    simp only [Uint64, Uint32] at h1 h2
    rw [← h1, ← h2, e1, e2]
  · intro h
    have h' := List.append_inj h (by rw [l8, leBytes_length])
    simp only [Uint64, Uint32]
    rw [h'.1, h'.2, leValue_leBytes, leValue_leBytes]
    constructor
    · exact Nat.mod_eq_of_lt (by norm_num at hl ⊢; exact hl)
    · exact Nat.mod_eq_of_lt (by norm_num at hh ⊢; exact hh)

theorem and_mask32 (x : Nat) : (x &&& 0xffffffff) % 2 ^ 32 = x % 2 ^ 32 := by
  have h := Nat.and_pow_two_sub_one_eq_mod x 32
  norm_num at h
  rw [h]
  norm_num

theorem high_half_mod (s : Nat) : (s / 2 ^ 64 % 2 ^ 64) % 2 ^ 32 = s / 2 ^ 64 % 2 ^ 32 :=
  Nat.mod_mod_of_dvd _ (by norm_num)

/-! ## What `Seal` writes and what `Open` accepts -/

/-- The body of `Open` with the hash state named. -/
theorem Open_unfold (n : nullAEAD) (dst src : List Byte) (pn : PacketNumber)
    (a : List Byte) :
    Open n dst src pn a =
      if src.length < 12 then .error errTooShort
      else if ((fnvSum128 (openHash n src a)).1 &&& 0xffffffff) % 2 ^ 32 ≠
            Uint32 (src.drop 8) ∨ (fnvSum128 (openHash n src a)).2 ≠ Uint64 src then
        .error errAuth
      else .ok (src.drop 12) := rfl

/-- The body of `Seal` with the hash state named. -/
theorem Seal_unfold (n : nullAEAD) (dst src : List Byte) (pn : PacketNumber)
    (a : List Byte) :
    Seal n dst src pn a =
      (PutUint64
          ((if dst.length < 12 + src.length then List.replicate (12 + src.length) (0 : Byte)
              else dst.take (12 + src.length)).take 12 ++
            goCopy ((if dst.length < 12 + src.length then
              List.replicate (12 + src.length) (0 : Byte)
              else dst.take (12 + src.length)).drop 12) src)
          (fnvSum128 (sealHash n src a)).2).take 8 ++
        PutUint32
          ((PutUint64
            ((if dst.length < 12 + src.length then List.replicate (12 + src.length) (0 : Byte)
                else dst.take (12 + src.length)).take 12 ++
              goCopy ((if dst.length < 12 + src.length then
                List.replicate (12 + src.length) (0 : Byte)
                else dst.take (12 + src.length)).drop 12) src)
            (fnvSum128 (sealHash n src a)).2).drop 8)
          ((fnvSum128 (sealHash n src a)).1 % 2 ^ 32) := rfl

theorem put_tag (t src : List Byte) (low high : Nat) (ht : t.length = 12) :
    (PutUint64 (t ++ src) low).take 8 ++
        PutUint32 ((PutUint64 (t ++ src) low).drop 8) high =
      leBytes 8 low ++ leBytes 4 high ++ src := by
  have h8 : 8 ≤ (t ++ src).length := by rw [List.length_append]; omega
  rw [PutUint64_eq _ _ h8]
  have hl := leBytes_length 8 low
  rw [List.take_left' hl, List.drop_left' hl]
  have h4 : 4 ≤ ((t ++ src).drop 8).length := by
    rw [List.length_drop, List.length_append]; omega
  rw [PutUint32_eq _ _ h4, List.drop_drop]
  have hd : (t ++ src).drop (8 + 4) = src := by
    have : 8 + 4 = t.length := by omega
    rw [this, List.drop_left]
  rw [hd, List.append_assoc]

/-- The bytes `Seal` returns: the tag of its hash followed by the source bytes. -/
theorem Seal_eq (n : nullAEAD) (dst src : List Byte) (pn : PacketNumber) (a : List Byte) :
    Seal n dst src pn a = tagBytes (sealHash n src a) ++ src := by
  have key : ∀ d : List Byte, d.length = 12 + src.length →
      d.take 12 ++ goCopy (d.drop 12) src = d.take 12 ++ src := by
    intro d hd
    have h1 : (d.drop 12).length = src.length := by rw [List.length_drop]; omega
    simp only [goCopy, h1, Nat.min_self, List.take_length]
    rw [← h1, List.drop_length, List.append_nil]
  have fin : ∀ d : List Byte, d.length = 12 + src.length →
      (PutUint64 (d.take 12 ++ goCopy (d.drop 12) src)
            (fnvSum128 (sealHash n src a)).2).take 8 ++
          PutUint32 ((PutUint64 (d.take 12 ++ goCopy (d.drop 12) src)
            (fnvSum128 (sealHash n src a)).2).drop 8)
            ((fnvSum128 (sealHash n src a)).1 % 2 ^ 32) =
        tagBytes (sealHash n src a) ++ src := by
    intro d hd
    rw [key d hd, put_tag _ _ _ _ (by rw [List.length_take]; omega)]
    simp only [fnvSum128, tagBytes, high_half_mod]
  rw [Seal_unfold]
  by_cases hc : dst.length < 12 + src.length
  · simp only [hc, if_true]
    exact fin _ (by simp)
  · simp only [hc, if_false]
    exact fin _ (by rw [List.length_take]; omega)

/-- The success case of `Open`: at least 12 bytes, the first 12 of them the tag of the
recomputed hash; the result is the rest. -/
theorem Open_ok_iff (n : nullAEAD) (dst c : List Byte) (pn : PacketNumber)
    (a p : List Byte) :
    Open n dst c pn a = .ok p ↔
      12 ≤ c.length ∧ c.take 12 = tagBytes (openHash n c a) ∧ p = c.drop 12 := by
  rw [Open_unfold]
  by_cases hc : c.length < 12
  · simp only [hc, if_true]
    constructor
    · intro h; cases h
    · rintro ⟨h, _⟩; omega
  · simp only [hc, if_false]
    have hc12 : 12 ≤ c.length := by omega
    have hiff := stored_tag_eq_iff c (openHash n c a % 2 ^ 64)
      (openHash n c a / 2 ^ 64 % 2 ^ 32) hc12 (Nat.mod_lt _ (by norm_num))
      (Nat.mod_lt _ (by norm_num))
    simp only [fnvSum128, and_mask32, high_half_mod, tagBytes] at hiff ⊢
    by_cases hm : openHash n c a / 2 ^ 64 % 2 ^ 32 ≠ Uint32 (c.drop 8) ∨
        openHash n c a % 2 ^ 64 ≠ Uint64 c
    · rw [if_pos hm]
      constructor
      · intro h; cases h
      · rintro ⟨_, h, _⟩
        have := hiff.mpr h
        rcases hm with hm | hm
        · exact absurd this.2.symm hm
        · exact absurd this.1.symm hm
    · rw [if_neg hm]
      have hm' : Uint64 c = openHash n c a % 2 ^ 64 ∧
          Uint32 (c.drop 8) = openHash n c a / 2 ^ 64 % 2 ^ 32 := by
        constructor
        · by_contra h; exact hm (Or.inr (fun e => h e.symm))
        · by_contra h; exact hm (Or.inl (fun e => h e.symm))
      constructor
      · intro h
        refine ⟨hc12, hiff.mp hm', ?_⟩
        cases h; rfl
      · rintro ⟨_, _, h⟩
        rw [h]

/-- The failure case of `Open` on an input of at least 12 bytes. -/
theorem Open_auth_iff (n : nullAEAD) (dst c : List Byte) (pn : PacketNumber)
    (a : List Byte) (hc : 12 ≤ c.length) :
    Open n dst c pn a = .error errAuth ↔ c.take 12 ≠ tagBytes (openHash n c a) := by
  have hok := Open_ok_iff n dst c pn a (c.drop 12)
  have hcases : Open n dst c pn a = .error errAuth ∨
      Open n dst c pn a = .ok (c.drop 12) := by
    rw [Open_unfold]
    rw [if_neg (by omega)]
    split
    · exact Or.inl rfl
    · exact Or.inr rfl
  constructor
  · intro h1 h2
    have := hok.mpr ⟨hc, h2, rfl⟩
    rw [h1] at this
    cases this
  · intro h
    rcases hcases with h1 | h1
    · exact h1
    · exact absurd (hok.mp h1).2.1 h

/-! ## The hash of `Seal` and of `Open` in terms of the role salt -/

theorem fnvWrite_append (s : Nat) (x y : List Byte) :
    fnvWrite s (x ++ y) = fnvWrite (fnvWrite s x) y := by
  simp [fnvWrite, List.foldl_append]

theorem sealHash_eq (n : nullAEAD) (src a : List Byte) :
    sealHash n src a = fnv128a (a ++ src ++ roleSalt n.perspective n.version) := by
  unfold sealHash roleSalt fnv128a Version37
  by_cases hv : n.version < 37
  · have h2 : ¬ (n.version ≥ 37) := not_le.mpr hv
    simp only [hv, h2, if_true, if_false, List.append_nil, fnvWrite_append]
  · have h2 : n.version ≥ 37 := not_lt.mp hv
    cases hp : n.perspective <;>
      simp [hv, h2, fnvWrite_append]

theorem openHash_eq (n : nullAEAD) (c a : List Byte) :
    openHash n c a =
      fnv128a (a ++ c.drop 12 ++ roleSalt n.perspective.opposite n.version) := by
  unfold openHash roleSalt fnv128a Version37
  by_cases hv : n.version < 37
  · have h2 : ¬ (n.version ≥ 37) := not_le.mpr hv
    simp only [hv, h2, if_true, if_false, List.append_nil, fnvWrite_append]
  · have h2 : n.version ≥ 37 := not_lt.mp hv
    cases hp : n.perspective <;>
      simp [hv, h2, fnvWrite_append, Perspective.opposite]

/-- The hash `Open` recomputes on a packet `t ++ p` with a 12-byte `t` is the hash the
opposite perspective computes when sealing `p`. -/
theorem openHash_append (q : Perspective) (v : VersionNumber) (t p a : List Byte)
    (ht : t.length = 12) :
    openHash (NewNullAEAD q v) (t ++ p) a = sealHash (NewNullAEAD q.opposite v) p a := by
  rw [openHash_eq, sealHash_eq]
  have : (t ++ p).drop 12 = p := by rw [← ht, List.drop_left]
  rw [this]
  rfl

/-- Opening a packet that some perspective sealed, in terms of the two hashes. -/
theorem Open_Seal_ok (q r : Perspective) (v : VersionNumber) (dst dst2 p a : List Byte)
    (pn pn2 : PacketNumber)
    (h : tagBytes (sealHash (NewNullAEAD r v) p a) =
      tagBytes (sealHash (NewNullAEAD q.opposite v) p a)) :
    Open (NewNullAEAD q v) dst2 (Seal (NewNullAEAD r v) dst p pn a) pn2 a = .ok p := by
  rw [Open_ok_iff, Seal_eq]
  have hl := tagBytes_length (sealHash (NewNullAEAD r v) p a)
  refine ⟨by rw [List.length_append]; omega, ?_, ?_⟩
  · rw [openHash_append _ _ _ _ _ hl, List.take_left' hl, h]
  · rw [List.drop_left' hl]

theorem Open_Seal_auth (q r : Perspective) (v : VersionNumber) (dst dst2 p a : List Byte)
    (pn pn2 : PacketNumber)
    (h : tagBytes (sealHash (NewNullAEAD r v) p a) ≠
      tagBytes (sealHash (NewNullAEAD q.opposite v) p a)) :
    Open (NewNullAEAD q v) dst2 (Seal (NewNullAEAD r v) dst p pn a) pn2 a =
      .error errAuth := by
  have hl := tagBytes_length (sealHash (NewNullAEAD r v) p a)
  rw [Open_auth_iff, Seal_eq]
  · rw [openHash_append _ _ _ _ _ hl, List.take_left' hl]
    exact h
  · rw [Seal_eq, List.length_append]; omega

/-! ## Arithmetic of the FNV-1a round -/

theorem xor_mod_two_pow (a b k : Nat) :
    (a ^^^ b) % 2 ^ k = (a % 2 ^ k) ^^^ (b % 2 ^ k) := by
  apply Nat.eq_of_testBit_eq
  intro i
  simp only [Nat.testBit_mod_two_pow, Nat.testBit_xor]
  by_cases h : i < k <;> simp [h]

/-- The low `k` bits after a round depend only on the low `k` bits before it. -/
theorem fnvWriteByte_mod (s : Nat) (v : Byte) (k : Nat) (hk : k ≤ 128) :
    fnvWriteByte s v % 2 ^ k = fnvWriteByte (s % 2 ^ k) v % 2 ^ k := by
  have hd : 2 ^ k ∣ 2 ^ 128 := Nat.pow_dvd_pow 2 hk
  unfold fnvWriteByte
  rw [Nat.mod_mod_of_dvd _ hd, Nat.mod_mod_of_dvd _ hd, Nat.mul_mod,
    Nat.mul_mod ((s % 2 ^ k) ^^^ v.val), xor_mod_two_pow, xor_mod_two_pow (s % 2 ^ k),
    Nat.mod_mod]

theorem fnvWrite_mod (data : List Byte) (s k : Nat) (hk : k ≤ 128) :
    fnvWrite s data % 2 ^ k = fnvWrite (s % 2 ^ k) data % 2 ^ k := by
  induction data generalizing s with
  | nil => simp [fnvWrite]
  | cons b bs ih =>
    have e : ∀ t, fnvWrite t (b :: bs) = fnvWrite (fnvWriteByte t b) bs := fun _ => rfl
    rw [e, e, ih, fnvWriteByte_mod s b k hk, ← ih]

theorem fnvPrime_coprime (k : Nat) : Nat.Coprime (2 ^ k) fnvPrime128 := by
  apply Nat.Coprime.pow_left
  unfold fnvPrime128
  decide

/-- A round is injective on the low `k` bits of the state. -/
theorem fnvWriteByte_inj (s t : Nat) (v : Byte) (k : Nat) (hk : k ≤ 128)
    (h : fnvWriteByte s v % 2 ^ k = fnvWriteByte t v % 2 ^ k) : s % 2 ^ k = t % 2 ^ k := by
  have hd : 2 ^ k ∣ 2 ^ 128 := Nat.pow_dvd_pow 2 hk
  unfold fnvWriteByte at h
  rw [Nat.mod_mod_of_dvd _ hd, Nat.mod_mod_of_dvd _ hd] at h
  have h2 : (s ^^^ v.val) % 2 ^ k = (t ^^^ v.val) % 2 ^ k :=
    Nat.ModEq.cancel_right_of_coprime (fnvPrime_coprime k) h
  rw [xor_mod_two_pow, xor_mod_two_pow t] at h2
  exact Nat.xor_left_inj.mp h2

theorem fnvWrite_inj (data : List Byte) (s t k : Nat) (hk : k ≤ 128)
    (h : fnvWrite s data % 2 ^ k = fnvWrite t data % 2 ^ k) : s % 2 ^ k = t % 2 ^ k := by
  induction data generalizing s t with
  | nil => simpa [fnvWrite] using h
  | cons b bs ih =>
    have e : ∀ u, fnvWrite u (b :: bs) = fnvWrite (fnvWriteByte u b) bs := fun _ => rfl
    rw [e, e] at h
    exact fnvWriteByte_inj s t b k hk (ih _ _ h)

/-- Two different octets absorbed into the same state give states that differ in their
low 64 bits. -/
theorem fnvWriteByte_ne (s : Nat) (v w : Byte) (h : v ≠ w) :
    fnvWriteByte s v % 2 ^ 64 ≠ fnvWriteByte s w % 2 ^ 64 := by
  intro e
  have hd : 2 ^ 64 ∣ 2 ^ 128 := Nat.pow_dvd_pow 2 (by norm_num)
  unfold fnvWriteByte at e
  rw [Nat.mod_mod_of_dvd _ hd, Nat.mod_mod_of_dvd _ hd] at e
  have h2 : (s ^^^ v.val) % 2 ^ 64 = (s ^^^ w.val) % 2 ^ 64 :=
    Nat.ModEq.cancel_right_of_coprime (fnvPrime_coprime 64) e
  rw [xor_mod_two_pow, xor_mod_two_pow s] at h2
  have h3 := Nat.xor_right_inj.mp h2
  have hv := v.isLt
  have hw := w.isLt
  apply h
  apply Fin.ext
  omega

/-- Replacing one octet of a message changes the low 64 bits of the hash state, whatever
is absorbed afterwards. -/
theorem fnvWrite_set_ne (l : List Byte) (s i : Nat) (b : Byte) (tail : List Byte)
    (hi : i < l.length) (hb : b ≠ l.getD i 0) :
    fnvWrite (fnvWrite s (l.set i b)) tail % 2 ^ 64 ≠
      fnvWrite (fnvWrite s l) tail % 2 ^ 64 := by
  induction l generalizing s i with
  | nil => simp at hi
  | cons x xs ih =>
    cases i with
    | zero =>
      intro e
      have e2 : fnvWrite (fnvWriteByte s b) (xs ++ tail) % 2 ^ 64 =
          fnvWrite (fnvWriteByte s x) (xs ++ tail) % 2 ^ 64 := by
        rw [fnvWrite_append, fnvWrite_append]; exact e
      exact fnvWriteByte_ne s b x (by simpa using hb)
        (fnvWrite_inj _ _ _ 64 (by norm_num) e2)
    | succ i =>
      have hi2 : i < xs.length := by simpa using hi
      exact ih (fnvWriteByte s x) i hi2 (by simpa using hb)

/-- Equal tags mean equal low 64 bits of the hash state. -/
theorem tagBytes_low (s t : Nat) (h : tagBytes s = tagBytes t) : s % 2 ^ 64 = t % 2 ^ 64 := by
  unfold tagBytes at h
  have h1 := (List.append_inj h (by rw [leBytes_length, leBytes_length])).1
  have h2 := congrArg leValue h1
  rw [leValue_leBytes, leValue_leBytes] at h2
  have e : (256 : Nat) ^ 8 = 2 ^ 64 := by norm_num
  rw [e, Nat.mod_mod, Nat.mod_mod] at h2
  exact h2

/-- The two role names never lead to the same tag: already the low three bits of the
state differ. -/
theorem salt_states_differ (h : Nat) :
    fnvWrite h (bytesOfString "Server") % 2 ^ 64 ≠
      fnvWrite h (bytesOfString "Client") % 2 ^ 64 := by
  intro e
  have e3 : fnvWrite h (bytesOfString "Server") % 2 ^ 3 =
      fnvWrite h (bytesOfString "Client") % 2 ^ 3 := by
    have hd : 2 ^ 3 ∣ 2 ^ 64 := Nat.pow_dvd_pow 2 (by norm_num)
    rw [← Nat.mod_mod_of_dvd _ hd, e, Nat.mod_mod_of_dvd _ hd]
  rw [fnvWrite_mod _ h 3 (by norm_num),
    fnvWrite_mod (bytesOfString "Client") h 3 (by norm_num)] at e3
  have hlt : h % 2 ^ 3 < 8 := Nat.mod_lt _ (by norm_num)
  revert e3
  generalize h % 2 ^ 3 = r at hlt
  interval_cases r <;> decide

theorem salted_tags_differ (v : VersionNumber) (hv : Version37 ≤ v) (p a : List Byte) :
    tagBytes (sealHash (NewNullAEAD .PerspectiveServer v) p a) ≠
      tagBytes (sealHash (NewNullAEAD .PerspectiveClient v) p a) := by
  intro e
  have h := tagBytes_low _ _ e
  have hv2 : v ≥ Version37 := hv
  simp only [sealHash, NewNullAEAD, hv2, if_true, reduceCtorEq, if_false] at h
  exact salt_states_differ _ h

/-! ## Tampering with a packet -/

theorem flipBitOfByte_ne (b : Byte) (j : Nat) (hj : j < 8) : flipBitOfByte b j ≠ b := by
  intro e
  have hb : b.val < 2 ^ 8 := b.isLt
  have hp : 2 ^ j < 2 ^ 8 := Nat.pow_lt_pow_right (by norm_num) hj
  have hx : b.val ^^^ 2 ^ j < 2 ^ 8 := Nat.xor_lt_two_pow hb hp
  have e2 := congrArg Fin.val e
  simp only [flipBitOfByte, toByte] at e2
  rw [Nat.mod_eq_of_lt (by simpa using hx)] at e2
  have e3 : b.val ^^^ 2 ^ j = b.val ^^^ 0 := by rw [e2, Nat.xor_zero]
  have e4 := Nat.xor_right_inj.mp e3
  exact absurd e4 (Nat.pos_iff_ne_zero.mp (Nat.two_pow_pos j))

theorem take_set_of_le (c : List Byte) (i : Nat) (b : Byte) (hi : 12 ≤ i) :
    (c.set i b).take 12 = c.take 12 := by
  apply List.ext_getElem?
  intro k
  by_cases hk : k < 12
  · rw [List.getElem?_take_of_lt hk, List.getElem?_take_of_lt hk,
      List.getElem?_set_ne (by omega)]
  · rw [List.getElem?_take_eq_none (by omega), List.getElem?_take_eq_none (by omega)]

theorem take_set_ne (c : List Byte) (i : Nat) (b : Byte) (hi : i < 12) (hl : i < c.length)
    (hb : b ≠ c.getD i 0) : (c.set i b).take 12 ≠ c.take 12 := by
  intro e
  have e2 := congrArg (fun l => l[i]?) e
  simp only [List.getElem?_take_of_lt hi, List.getElem?_set_self hl,
    List.getElem?_eq_getElem hl] at e2
  apply hb
  simp only [List.getD_eq_getElem?_getD, List.getElem?_eq_getElem hl, Option.getD_some]
  exact Option.some.inj e2

/-- A changed octet in the body of a packet changes the tag `Open` recomputes. -/
theorem openHash_set_ne (n : nullAEAD) (c a : List Byte) (i : Nat) (b : Byte)
    (hi : 12 ≤ i) (hl : i < c.length) (hb : b ≠ c.getD i 0) :
    tagBytes (openHash n (c.set i b) a) ≠ tagBytes (openHash n c a) := by
  intro e
  have h := tagBytes_low _ _ e
  rw [openHash_eq, openHash_eq] at h
  simp only [fnv128a, fnvWrite_append] at h
  have hd : (c.set i b).drop 12 = (c.drop 12).set (i - 12) b := by
    rw [List.drop_set, if_neg (by omega)]
  rw [hd] at h
  refine fnvWrite_set_ne (c.drop 12) _ (i - 12) b _ ?_ ?_ h
  · rw [List.length_drop]; omega
  · have : (c.drop 12).getD (i - 12) 0 = c.getD i 0 := by
      simp only [List.getD_eq_getElem?_getD, List.getElem?_drop]
      congr 2
      omega
    rw [this]; exact hb

/-- A change in the first 12 bytes leaves the recomputed hash alone. -/
theorem openHash_set_tag (n : nullAEAD) (c a : List Byte) (i : Nat) (b : Byte)
    (hi : i < 12) : openHash n (c.set i b) a = openHash n c a := by
  rw [openHash_eq, openHash_eq, List.drop_set_of_lt b c hi]

theorem sealHash_unsalted (q : Perspective) (v : VersionNumber) (hv : v < Version37)
    (p a : List Byte) :
    sealHash (NewNullAEAD q v) p a = fnvWrite (fnvWrite fnvOffset128 a) p := by
  have h2 : ¬ (v ≥ Version37) := not_le.mpr hv
  simp only [sealHash, NewNullAEAD, h2, if_false]

theorem openHash_unsalted (q : Perspective) (v : VersionNumber) (hv : v < Version37)
    (c a : List Byte) :
    openHash (NewNullAEAD q v) c a = fnvWrite (fnvWrite fnvOffset128 a) (c.drop 12) := by
  have h2 : ¬ (v ≥ Version37) := not_le.mpr hv
  simp only [openHash, NewNullAEAD, h2, if_false]

theorem leBytes_getElem? (k v i : Nat) (hi : i < k) :
    (leBytes k v)[i]? = some (toByte (v >>> (8 * i))) := by
  induction k generalizing v i with
  | zero => omega
  | succ k ih =>
    cases i with
    | zero => simp [leBytes]
    | succ i =>
      have hi2 : i < k := by omega
      simp only [leBytes, List.getElem?_cons_succ, ih (v / 256) i hi2,
        Nat.shiftRight_eq_div_pow, Nat.div_div_eq_div_mul]
      have e : 256 * 2 ^ (8 * i) = 2 ^ (8 * (i + 1)) := by
        rw [Nat.mul_add, pow_add]; norm_num; ring
      rw [e]

/-- On an input of at least 12 bytes `Open` either returns the rest of the input or the
authentication error. -/
theorem Open_cases (n : nullAEAD) (dst c : List Byte) (pn : PacketNumber) (a : List Byte)
    (hc : 12 ≤ c.length) :
    Open n dst c pn a = .ok (c.drop 12) ∨ Open n dst c pn a = .error errAuth := by
  rw [Open_unfold]
  rw [if_neg (by omega)]
  split
  · exact Or.inr rfl
  · exact Or.inl rfl

theorem Open_short (n : nullAEAD) (dst c : List Byte) (pn : PacketNumber) (a : List Byte)
    (hc : c.length < 12) : Open n dst c pn a = .error errTooShort := by
  rw [Open_unfold]
  rw [if_pos hc]

theorem errTooShort_ne_errAuth : errTooShort ≠ errAuth := by decide

/-! ## The claims -/

/-- C1: a packet sealed by a protector of one perspective is opened without error by a
protector of the opposite perspective and the same version, and the result is exactly the
plaintext; this holds at every version, for all plaintexts, associated data and packet
numbers (and destination buffers). -/
theorem cross_role_round_trip (v : VersionNumber) (p a dst dst2 : List Byte)
    (pn pn2 : PacketNumber) :
    Open (NewNullAEAD .PerspectiveClient v) dst2
        (Seal (NewNullAEAD .PerspectiveServer v) dst p pn a) pn2 a = .ok p ∧
      Open (NewNullAEAD .PerspectiveServer v) dst2
        (Seal (NewNullAEAD .PerspectiveClient v) dst p pn a) pn2 a = .ok p :=
  ⟨Open_Seal_ok _ _ _ _ _ _ _ _ _ rfl, Open_Seal_ok _ _ _ _ _ _ _ _ _ rfl⟩

/-- C2: from version 37 on, a packet sealed by a Server protector is rejected with the
authentication error by a Server protector, and likewise Client by Client, for every
plaintext and associated data. -/
theorem role_mismatch_detected (v : VersionNumber) (hv : Version37 ≤ v)
    (p a dst dst2 : List Byte) (pn pn2 : PacketNumber) :
    Open (NewNullAEAD .PerspectiveServer v) dst2
        (Seal (NewNullAEAD .PerspectiveServer v) dst p pn a) pn2 a = .error errAuth ∧
      Open (NewNullAEAD .PerspectiveClient v) dst2
        (Seal (NewNullAEAD .PerspectiveClient v) dst p pn a) pn2 a = .error errAuth :=
  ⟨Open_Seal_auth _ _ _ _ _ _ _ _ _ (salted_tags_differ v hv p a),
    Open_Seal_auth _ _ _ _ _ _ _ _ _ (fun e => salted_tags_differ v hv p a e.symm)⟩

theorem role_mismatch_detected_witness :
    Version37 ≤ (37 : VersionNumber) ∧
      Open (NewNullAEAD .PerspectiveServer 37) []
          (Seal (NewNullAEAD .PerspectiveServer 37) [] (bytesOfString "hello") 1
            (bytesOfString "assoc")) 1 (bytesOfString "assoc") = .error errAuth ∧
      Open (NewNullAEAD .PerspectiveClient 37) []
          (Seal (NewNullAEAD .PerspectiveClient 37) [] (bytesOfString "hello") 1
            (bytesOfString "assoc")) 1 (bytesOfString "assoc") = .error errAuth :=
  ⟨by decide, role_mismatch_detected 37 (by decide) _ _ _ _ _ _⟩

/-- C3: when `Open` accepts a packet, flipping any single bit of it at a byte position
at or after 12 makes `Open` fail with the authentication error. -/
theorem body_tamper_detected (n : nullAEAD) (dst dst2 c a p : List Byte) (pn : PacketNumber)
    (i j : Nat) (hok : Open n dst c pn a = .ok p) (hi : 12 ≤ i) (hl : i < c.length)
    (hj : j < 8) :
    Open n dst2 (flipBit c i j) pn a = .error errAuth := by
  have h := (Open_ok_iff n dst c pn a p).mp hok
  unfold flipBit
  rw [Open_auth_iff _ _ _ _ _ (by rw [List.length_set]; exact h.1),
    take_set_of_le c i _ hi, h.2.1]
  exact fun e => openHash_set_ne n c a i _ hi hl (flipBitOfByte_ne _ j hj) e.symm

/-- C4: when `Open` accepts a packet, flipping any single bit in its first 12 bytes makes
`Open` fail with the authentication error. -/
theorem tag_tamper_detected (n : nullAEAD) (dst dst2 c a p : List Byte) (pn : PacketNumber)
    (i j : Nat) (hok : Open n dst c pn a = .ok p) (hi : i < 12) (hj : j < 8) :
    Open n dst2 (flipBit c i j) pn a = .error errAuth := by
  have h := (Open_ok_iff n dst c pn a p).mp hok
  unfold flipBit
  rw [Open_auth_iff _ _ _ _ _ (by rw [List.length_set]; exact h.1),
    openHash_set_tag n c a i _ hi, ← h.2.1]
  exact take_set_ne c i _ hi (by omega) (flipBitOfByte_ne _ j hj)

theorem body_tamper_detected_witness :
    Open (NewNullAEAD .PerspectiveServer 36) [] samplePacket 7 sampleAssoc =
        .ok (bytesOfString "hello") ∧
      12 ≤ 14 ∧ 14 < samplePacket.length ∧ 5 < 8 ∧
      Open (NewNullAEAD .PerspectiveServer 36) [] (flipBit samplePacket 14 5) 7 sampleAssoc =
        .error errAuth :=
  ⟨by rfl, by decide, by decide, by decide,
    body_tamper_detected (NewNullAEAD .PerspectiveServer 36) [] [] samplePacket sampleAssoc
      (bytesOfString "hello") 7 14 5 (by rfl) (by decide) (by decide) (by decide)⟩

theorem tag_tamper_detected_witness :
    Open (NewNullAEAD .PerspectiveServer 36) [] samplePacket 7 sampleAssoc =
        .ok (bytesOfString "hello") ∧
      9 < 12 ∧ 7 < 8 ∧
      Open (NewNullAEAD .PerspectiveServer 36) [] (flipBit samplePacket 9 7) 7 sampleAssoc =
        .error errAuth :=
  ⟨by rfl, by decide, by decide,
    tag_tamper_detected (NewNullAEAD .PerspectiveServer 36) [] [] samplePacket sampleAssoc
      (bytesOfString "hello") 7 9 7 (by rfl) (by decide) (by decide)⟩

/-- C5: `Open` returns the length error exactly when the input has fewer than 12 bytes;
on such an input it returns neither a plaintext nor the authentication error, on an input
of 12 bytes or more it does not return the length error, and a 12-byte input is either
accepted with the empty payload or rejected by the tag check. -/
theorem open_length_error_iff (n : nullAEAD) (dst c : List Byte) (pn : PacketNumber)
    (a : List Byte) :
    (Open n dst c pn a = .error errTooShort ↔ c.length < 12) ∧
      (c.length < 12 →
        (∀ p, Open n dst c pn a ≠ .ok p) ∧ Open n dst c pn a ≠ .error errAuth) ∧
      (12 ≤ c.length → Open n dst c pn a ≠ .error errTooShort) ∧
      (c.length = 12 →
        Open n dst c pn a = .ok [] ∨ Open n dst c pn a = .error errAuth) := by
  have hlong : 12 ≤ c.length → Open n dst c pn a ≠ .error errTooShort := by
    intro hc e
    rcases Open_cases n dst c pn a hc with h | h
    · rw [h] at e; cases e
    · rw [h] at e
      exact errTooShort_ne_errAuth (Except.error.inj e).symm
  refine ⟨⟨?_, Open_short n dst c pn a⟩, ?_, hlong, ?_⟩
  · intro e
    by_contra hc
    exact hlong (by omega) e
  · intro hc
    rw [Open_short n dst c pn a hc]
    refine ⟨fun p e => (by cases e), fun e => ?_⟩
    exact errTooShort_ne_errAuth (Except.error.inj e)
  · intro hc
    have hd : c.drop 12 = [] := by rw [← hc, List.drop_length]
    have := Open_cases n dst c pn a (by omega)
    rw [hd] at this
    exact this

/-- C6: on an input of at least 12 bytes every error `Open` returns is the one
authentication error, and it is returned whenever the low-64-bit half mismatches and
whenever the 32-bit half mismatches, so it does not tell which half differed. -/
theorem no_authentication_oracle (n : nullAEAD) (dst c : List Byte) (pn : PacketNumber)
    (a : List Byte) (hc : 12 ≤ c.length) :
    (∀ e, Open n dst c pn a = .error e → e = errAuth) ∧
      ((fnvSum128 (openHash n c a)).2 ≠ Uint64 c → Open n dst c pn a = .error errAuth) ∧
      (((fnvSum128 (openHash n c a)).1 &&& 0xffffffff) % 2 ^ 32 ≠ Uint32 (c.drop 8) →
        Open n dst c pn a = .error errAuth) := by
  refine ⟨?_, ?_, ?_⟩
  · intro e h
    rcases Open_cases n dst c pn a hc with h2 | h2
    · rw [h2] at h; cases h
    · rw [h2] at h; exact (Except.error.inj h).symm
  · intro hm
    rw [Open_unfold]
    rw [if_neg (by omega)]
    rw [if_pos (Or.inr hm)]
  · intro hm
    rw [Open_unfold]
    rw [if_neg (by omega)]
    rw [if_pos (Or.inl hm)]

theorem no_authentication_oracle_witness :
    12 ≤ (flipBit samplePacket 0 0).length ∧
      ((fnvSum128 (openHash (NewNullAEAD .PerspectiveServer 36) (flipBit samplePacket 0 0)
          sampleAssoc)).2 ≠ Uint64 (flipBit samplePacket 0 0) ∧
        ((fnvSum128 (openHash (NewNullAEAD .PerspectiveServer 36) (flipBit samplePacket 0 0)
          sampleAssoc)).1 &&& 0xffffffff) % 2 ^ 32 =
          Uint32 ((flipBit samplePacket 0 0).drop 8)) ∧
      Open (NewNullAEAD .PerspectiveServer 36) [] (flipBit samplePacket 0 0) 7 sampleAssoc =
        .error errAuth ∧
      ((fnvSum128 (openHash (NewNullAEAD .PerspectiveServer 36) (flipBit samplePacket 8 0)
          sampleAssoc)).2 = Uint64 (flipBit samplePacket 8 0) ∧
        ((fnvSum128 (openHash (NewNullAEAD .PerspectiveServer 36) (flipBit samplePacket 8 0)
          sampleAssoc)).1 &&& 0xffffffff) % 2 ^ 32 ≠
          Uint32 ((flipBit samplePacket 8 0).drop 8)) ∧
      Open (NewNullAEAD .PerspectiveServer 36) [] (flipBit samplePacket 8 0) 7 sampleAssoc =
        .error errAuth :=
  ⟨by decide, ⟨by decide, by decide⟩,
    (no_authentication_oracle (NewNullAEAD .PerspectiveServer 36) []
      (flipBit samplePacket 0 0) 7 sampleAssoc (by decide)).2.1 (by decide),
    ⟨by decide, by decide⟩,
    (no_authentication_oracle (NewNullAEAD .PerspectiveServer 36) []
      (flipBit samplePacket 8 0) 7 sampleAssoc (by decide)).2.2 (by decide)⟩

/-- C7: `Seal` returns exactly `12 + len(p)` bytes; byte `i` for `i < 8` is byte `i` of the
low 64 bits, and byte `8 + i` for `i < 4` is byte `i` of the low 32 bits of the high 64
bits, of FNV-1a-128 of `a ++ p ++ roleSalt` with the sealer's own role; the bytes from 12
on are `p`. -/
theorem seal_layout (n : nullAEAD) (dst p : List Byte) (pn : PacketNumber) (a : List Byte) :
    (Seal n dst p pn a).length = 12 + p.length ∧
      (∀ i, i < 8 → (Seal n dst p pn a)[i]? = some (toByte
        ((fnv128a (a ++ p ++ roleSalt n.perspective n.version) % 2 ^ 64) >>> (8 * i)))) ∧
      (∀ i, i < 4 → (Seal n dst p pn a)[8 + i]? = some (toByte
        (((fnv128a (a ++ p ++ roleSalt n.perspective n.version) / 2 ^ 64) % 2 ^ 64
          % 2 ^ 32) >>> (8 * i)))) ∧
      (Seal n dst p pn a).drop 12 = p := by
  rw [Seal_eq, ← sealHash_eq]
  have hl := tagBytes_length (sealHash n p a)
  refine ⟨by rw [List.length_append, hl], ?_, ?_, List.drop_left' hl⟩
  · intro i hi
    rw [List.getElem?_append_left (by omega)]
    unfold tagBytes
    rw [List.getElem?_append_left (by rw [leBytes_length]; exact hi)]
    exact leBytes_getElem? 8 _ i hi
  · intro i hi
    rw [List.getElem?_append_left (by omega)]
    unfold tagBytes
    rw [List.getElem?_append_right (by rw [leBytes_length]; omega), leBytes_length,
      Nat.add_sub_cancel_left, high_half_mod]
    exact leBytes_getElem? 4 _ i hi

/-- C8, as stated, fails: at version 37 a Server protector rejects the packet it sealed
itself. -/
theorem same_instance_round_trip_fails :
    Open (NewNullAEAD .PerspectiveServer 37) []
        (Seal (NewNullAEAD .PerspectiveServer 37) [] (bytesOfString "hello") 7 sampleAssoc)
        7 sampleAssoc ≠ .ok (bytesOfString "hello") ∧
      Open (NewNullAEAD .PerspectiveServer 37) []
        (Seal (NewNullAEAD .PerspectiveServer 37) [] (bytesOfString "hello") 7 sampleAssoc)
        7 sampleAssoc = .error errAuth := by
  have h : Open (NewNullAEAD .PerspectiveServer 37) []
      (Seal (NewNullAEAD .PerspectiveServer 37) [] (bytesOfString "hello") 7 sampleAssoc)
      7 sampleAssoc = .error errAuth := by rfl
  exact ⟨fun e => (by rw [h] at e; cases e), h⟩

/-- C8, amended: for every perspective and every version below 37, a protector opens what
it sealed itself: `Open(Seal(p, pn, a), pn, a) = p`. -/
theorem same_instance_round_trip_below_37 (q : Perspective) (v : VersionNumber)
    (hv : v < Version37) (p a dst dst2 : List Byte) (pn : PacketNumber) :
    Open (NewNullAEAD q v) dst2 (Seal (NewNullAEAD q v) dst p pn a) pn a = .ok p :=
  Open_Seal_ok q q v dst dst2 p a pn pn
    (by rw [sealHash_unsalted q v hv, sealHash_unsalted q.opposite v hv])

theorem same_instance_round_trip_below_37_witness :
    (36 : VersionNumber) < Version37 ∧
      Open (NewNullAEAD .PerspectiveServer 36) []
        (Seal (NewNullAEAD .PerspectiveServer 36) [] (bytesOfString "hello") 7 sampleAssoc)
        7 sampleAssoc = .ok (bytesOfString "hello") :=
  ⟨by decide, same_instance_round_trip_below_37 .PerspectiveServer 36 (by decide) _ _ _ _ _⟩

/-- C9: `Open` by perspective `Q` at version `v` succeeds with plaintext `p` exactly when
the input is what the opposite perspective at version `v` seals for `p` and the same
associated data; whenever `Open` succeeds its result is the input without its first 12
bytes. -/
theorem open_accepts_exactly_peer_sealed (q : Perspective) (v : VersionNumber)
    (dst dst2 c a p : List Byte) (pn pn2 : PacketNumber) :
    (Open (NewNullAEAD q v) dst c pn a = .ok p ↔
        c = Seal (NewNullAEAD q.opposite v) dst2 p pn2 a) ∧
      (Open (NewNullAEAD q v) dst c pn a = .ok p → p = c.drop 12) := by
  refine ⟨?_, fun h => ((Open_ok_iff _ _ _ _ _ _).mp h).2.2⟩
  rw [Open_ok_iff, Seal_eq]
  constructor
  · rintro ⟨hc, ht, hp⟩
    have hl : (c.take 12).length = 12 := by rw [List.length_take]; omega
    have hsplit : c = c.take 12 ++ p := by rw [hp, List.take_append_drop]
    have hh := openHash_append q v (c.take 12) p a hl
    rw [← hsplit] at hh
    rw [← hh, ← ht]
    exact hsplit
  · intro hc
    have hl := tagBytes_length (sealHash (NewNullAEAD q.opposite v) p a)
    have hh := openHash_append q v _ p a hl
    rw [← hc] at hh
    refine ⟨?_, ?_, ?_⟩
    · rw [hc, List.length_append]; omega
    · rw [hh, hc, List.take_left' hl]
    · rw [hc, List.drop_left' hl]

/-- C10: below version 37 a Client protector and a Server protector seal to identical
bytes, `Open` gives the same result for both perspectives on every input, and a protector
opens the packets sealed by its own role. -/
theorem no_role_salt_below_threshold (v : VersionNumber) (hv : v < Version37)
    (p a c dst dst2 : List Byte) (pn pn2 : PacketNumber) :
    Seal (NewNullAEAD .PerspectiveClient v) dst p pn a =
        Seal (NewNullAEAD .PerspectiveServer v) dst p pn a ∧
      Open (NewNullAEAD .PerspectiveClient v) dst2 c pn2 a =
        Open (NewNullAEAD .PerspectiveServer v) dst2 c pn2 a ∧
      (∀ q : Perspective,
        Open (NewNullAEAD q v) dst2 (Seal (NewNullAEAD q v) dst p pn a) pn2 a = .ok p) := by
  refine ⟨?_, ?_, ?_⟩
  · rw [Seal_eq, Seal_eq, sealHash_unsalted _ v hv, sealHash_unsalted _ v hv]
  · rw [Open_unfold, Open_unfold, openHash_unsalted _ v hv, openHash_unsalted _ v hv]
  · intro q
    exact Open_Seal_ok q q v dst dst2 p a pn pn2
      (by rw [sealHash_unsalted q v hv, sealHash_unsalted q.opposite v hv])

theorem no_role_salt_below_threshold_witness :
    (36 : VersionNumber) < Version37 ∧
      Seal (NewNullAEAD .PerspectiveClient 36) [] (bytesOfString "hello") 7 sampleAssoc =
        Seal (NewNullAEAD .PerspectiveServer 36) [] (bytesOfString "hello") 7 sampleAssoc ∧
      Open (NewNullAEAD .PerspectiveClient 36) [] samplePacket 9 sampleAssoc =
        Open (NewNullAEAD .PerspectiveServer 36) [] samplePacket 9 sampleAssoc ∧
      (∀ q : Perspective,
        Open (NewNullAEAD q 36) []
          (Seal (NewNullAEAD q 36) [] (bytesOfString "hello") 7 sampleAssoc) 9 sampleAssoc =
          .ok (bytesOfString "hello")) :=
  ⟨by decide, no_role_salt_below_threshold 36 (by decide) _ _ _ _ _ _ _⟩

/-! ## Independence of the packet number and binding of the associated data -/

/-- A changed octet in the associated data changes the tag `Open` recomputes. -/
theorem openHash_assoc_set_ne (n : nullAEAD) (c a : List Byte) (i : Nat) (b : Byte)
    (hl : i < a.length) (hb : b ≠ a.getD i 0) :
    tagBytes (openHash n c (a.set i b)) ≠ tagBytes (openHash n c a) := by
  intro e
  have h := tagBytes_low _ _ e
  rw [openHash_eq, openHash_eq] at h
  simp only [fnv128a, List.append_assoc] at h
  rw [fnvWrite_append, fnvWrite_append _ a] at h
  exact fnvWrite_set_ne a _ i b _ hl hb h

/-- A list that agrees with `a` everywhere but at position `i` is `a` with position `i`
overwritten. -/
theorem eq_set_of_differs_at (a a2 : List Byte) (i : Nat) (hlen : a2.length = a.length)
    (hl : i < a.length) (hsame : ∀ j, j ≠ i → a2[j]? = a[j]?) :
    a2 = a.set i (a2.getD i 0) := by
  apply List.ext_getElem?
  intro j
  by_cases hj : j = i
  · subst hj
    have hl2 : j < a2.length := by omega
    rw [List.getElem?_set_self hl, List.getD_eq_getElem?_getD, List.getElem?_eq_getElem hl2,
      Option.getD_some]
  · rw [List.getElem?_set_ne (fun e => hj e.symm)]
    exact hsame j hj

/-- C11: the packet number and the destination buffer do not enter the results: for any two
packet numbers and any two destination buffers `Seal` returns the same bytes and `Open`
the same result, so both are functions of perspective, version, data and associated data
only. -/
theorem packet_number_not_mixed (n : nullAEAD) (p a c dst dst2 : List Byte)
    (pn1 pn2 : PacketNumber) :
    Seal n dst p pn1 a = Seal n dst2 p pn2 a ∧ Open n dst c pn1 a = Open n dst2 c pn2 a := by
  constructor
  · rw [Seal_eq, Seal_eq]
  · rw [Open_unfold, Open_unfold]

/-- C18: when `Open` accepts a packet with associated data `a`, it rejects the same packet
with the authentication error for every `a2` of the same length that differs from `a` in
exactly one byte. -/
theorem associated_data_bound (n : nullAEAD) (dst dst2 c a a2 p : List Byte)
    (pn : PacketNumber) (i : Nat) (hok : Open n dst c pn a = .ok p)
    (hlen : a2.length = a.length) (hl : i < a.length)
    (hne : a2.getD i 0 ≠ a.getD i 0) (hsame : ∀ j, j ≠ i → a2[j]? = a[j]?) :
    Open n dst2 c pn a2 = .error errAuth := by
  have h := (Open_ok_iff n dst c pn a p).mp hok
  rw [Open_auth_iff _ _ _ _ _ h.1, h.2.1, eq_set_of_differs_at a a2 i hlen hl hsame]
  exact fun e => openHash_assoc_set_ne n c a i _ hl hne e.symm

theorem associated_data_bound_witness :
    Open (NewNullAEAD .PerspectiveServer 36) [] samplePacket 7 sampleAssoc =
        .ok (bytesOfString "hello") ∧
      Open (NewNullAEAD .PerspectiveServer 36) [] samplePacket 7 (bytesOfString "asspc") =
        .error errAuth :=
  ⟨by rfl,
    associated_data_bound (NewNullAEAD .PerspectiveServer 36) [] [] samplePacket sampleAssoc
      (bytesOfString "asspc") (bytesOfString "hello") 7 3 (by rfl) (by decide) (by decide)
      (by decide) (by
        intro j hj
        match j, hj with
        | 0, _ => rfl
        | 1, _ => rfl
        | 2, _ => rfl
        | 3, h => exact absurd rfl h
        | 4, _ => rfl
        | (k + 5), _ => rfl)⟩

/-! ## The retransmission classifier -/

theorem strip_foldl (fs acc : List Frame) :
    fs.foldl (fun res f => if isFrameRetransmittable f then res ++ [f] else res) acc =
      acc ++ fs.filter isFrameRetransmittable := by
  induction fs generalizing acc with
  | nil => simp
  | cons f fs ih =>
    rw [List.foldl_cons, ih]
    by_cases h : isFrameRetransmittable f = true
    · simp [h, List.filter_cons]
    · simp [h, List.filter_cons]

theorem strip_eq_filter (fs : List Frame) :
    stripNonRetransmittableFrames fs = fs.filter isFrameRetransmittable := by
  unfold stripNonRetransmittableFrames
  rw [strip_foldl, List.nil_append]

theorem retransmittable_iff (f : Frame) :
    isFrameRetransmittable f = true ↔
      ¬ ((∃ a, f = Frame.Ack a) ∨ (∃ w, f = Frame.StopWaiting w)) := by
  cases f <;> simp [isFrameRetransmittable]

/-- C12: `isFrameRetransmittable` returns false exactly for the Ack and the StopWaiting
variants, and true for every other one: Stream, RstStream and any further implementation
of the interface. -/
theorem isFrameRetransmittable_false_iff (f : Frame) :
    (isFrameRetransmittable f = false ↔
        (∃ a, f = Frame.Ack a) ∨ (∃ w, f = Frame.StopWaiting w)) ∧
      (∀ x, isFrameRetransmittable (Frame.Stream x) = true) ∧
      (∀ x, isFrameRetransmittable (Frame.RstStream x) = true) ∧
      (∀ x, isFrameRetransmittable (Frame.Other x) = true) := by
  refine ⟨?_, fun _ => rfl, fun _ => rfl, fun _ => rfl⟩
  cases f <;> simp [isFrameRetransmittable]

/-- C13: `stripNonRetransmittableFrames` is the order-preserving filter by
`isFrameRetransmittable`: the result is a subsequence of the input, it contains exactly the
frames that are neither Ack nor StopWaiting, and each of these as often as the input
does. -/
theorem strip_is_filter (fs : List Frame) :
    stripNonRetransmittableFrames fs = fs.filter isFrameRetransmittable ∧
      List.Sublist (stripNonRetransmittableFrames fs) fs ∧
      (∀ f, f ∈ stripNonRetransmittableFrames fs ↔
        f ∈ fs ∧ ¬ ((∃ a, f = Frame.Ack a) ∨ (∃ w, f = Frame.StopWaiting w))) ∧
      (∀ f, isFrameRetransmittable f = true →
        (stripNonRetransmittableFrames fs).count f = fs.count f) ∧
      stripNonRetransmittableFrames [] = [] := by
  rw [strip_eq_filter]
  refine ⟨rfl, List.filter_sublist fs, ?_, ?_, rfl⟩
  · intro f
    rw [List.mem_filter, retransmittable_iff]
  · intro f hf
    rw [List.count_filter hf]

/-! ## Loss statistics -/

theorem onPacketLost_le (e : Bool) (b : Nat) (s : connectionStats) :
    s.slowstartPacketsLost ≤ (onPacketLost e b s).slowstartPacketsLost ∧
      s.slowstartBytesLost ≤ (onPacketLost e b s).slowstartBytesLost := by
  cases e <;> simp [onPacketLost]

theorem onPacketsLost_le (events : List (Bool × Nat)) (s : connectionStats) :
    s.slowstartPacketsLost ≤ (onPacketsLost events s).slowstartPacketsLost ∧
      s.slowstartBytesLost ≤ (onPacketsLost events s).slowstartBytesLost := by
  induction events generalizing s with
  | nil => exact ⟨Nat.le_refl _, Nat.le_refl _⟩
  | cons e es ih =>
    have h1 := onPacketLost_le e.1 e.2 s
    have h2 := ih (onPacketLost e.1 e.2 s)
    exact ⟨Nat.le_trans h1.1 h2.1, Nat.le_trans h1.2 h2.2⟩

/-- C16: a `Lost` transition in slow-start adds one to `slowstartPacketsLost` and the
record's byte count to `slowstartBytesLost`, outside slow-start it changes neither; three
losses of 100, 200 and 50 bytes in slow-start give 3 and 350, a later loss outside
slow-start leaves them, and over any run of transitions the counters never decrease. -/
theorem slow_start_loss_accounting :
    (∀ (b : Nat) (s : connectionStats),
        onPacketLost true b s =
          { slowstartPacketsLost := s.slowstartPacketsLost + 1,
            slowstartBytesLost := s.slowstartBytesLost + b }) ∧
      (∀ (b : Nat) (s : connectionStats), onPacketLost false b s = s) ∧
      onPacketsLost [(true, 100), (true, 200), (true, 50)]
          { slowstartPacketsLost := 0, slowstartBytesLost := 0 } =
        { slowstartPacketsLost := 3, slowstartBytesLost := 350 } ∧
      (∀ b : Nat,
        onPacketsLost [(true, 100), (true, 200), (true, 50), (false, b)]
            { slowstartPacketsLost := 0, slowstartBytesLost := 0 } =
          { slowstartPacketsLost := 3, slowstartBytesLost := 350 }) ∧
      (∀ (events : List (Bool × Nat)) (s : connectionStats),
        s.slowstartPacketsLost ≤ (onPacketsLost events s).slowstartPacketsLost ∧
          s.slowstartBytesLost ≤ (onPacketsLost events s).slowstartBytesLost) :=
  ⟨fun _ _ => rfl, fun _ _ => rfl, rfl, fun _ => rfl, onPacketsLost_le⟩

/-! ## The Lehmer generator of the integration tests -/

theorem seedAfter_lt (k : Nat) : seedAfter k < 2147483647 := by
  cases k with
  | zero => simp [seedAfter]
  | succ k => exact Nat.mod_lt _ (by norm_num)

theorem seedAfter_no_wrap (k : Nat) : seedAfter k * 48271 < 2 ^ 64 := by
  have h := seedAfter_lt k
  norm_num
  omega

theorem seedAfter_eq (k : Nat) : seedAfter k = 48271 ^ k % 2147483647 := by
  induction k with
  | zero => simp [seedAfter]
  | succ k ih =>
    have hw := seedAfter_no_wrap k
    show nextSeed (seedAfter k) = _
    unfold nextSeed
    rw [Nat.mod_eq_of_lt hw, ih, pow_succ, Nat.mul_mod, Nat.mod_mod, ← Nat.mul_mod]

theorem seedAfter_pos (k : Nat) : 1 ≤ seedAfter k := by
  rw [seedAfter_eq]
  have hc : Nat.Coprime (48271 ^ k) 2147483647 :=
    Nat.Coprime.pow_left k (by norm_num)
  by_contra h
  have h0 : 48271 ^ k % 2147483647 = 0 := by omega
  have hd : 2147483647 ∣ 48271 ^ k := Nat.dvd_of_mod_eq_zero h0
  have h1 := Nat.Coprime.eq_one_of_dvd hc.symm hd
  norm_num at h1

theorem set_append_cons (A B : List Byte) (y x : Byte) :
    (A ++ y :: B).set A.length x = A ++ x :: B := by
  induction A with
  | nil => rfl
  | cons a A ih => simp [ih]

/-- The state of the loop of `generatePRData` after `n` of its `l` passes. -/
theorem generatePRData_loop (l n : Nat) (hn : n ≤ l) :
    (List.range n).foldl
        (fun (st : List Byte × Nat) i =>
          ((st.1.set i (toByte (nextSeed st.2))), nextSeed st.2))
        (List.replicate l (0 : Byte), 1) =
      ((List.range n).map (fun i => toByte (seedAfter (i + 1))) ++
          List.replicate (l - n) (0 : Byte), seedAfter n) := by
  induction n with
  | zero => simp [seedAfter]
  | succ n ih =>
    rw [List.range_succ, List.foldl_append, ih (by omega)]
    have hr : l - n = (l - (n + 1)) + 1 := by omega
    have hlen : ((List.range n).map (fun i => toByte (seedAfter (i + 1)))).length = n := by
      simp
    simp only [List.foldl_cons, List.foldl_nil, List.map_append, List.map_cons, List.map_nil]
    rw [hr, List.replicate_succ]
    have hs := set_append_cons ((List.range n).map (fun i => toByte (seedAfter (i + 1))))
      (List.replicate (l - (n + 1)) (0 : Byte)) 0 (toByte (nextSeed (seedAfter n)))
    rw [hlen] at hs
    rw [hs]
    simp [seedAfter]

theorem generatePRData_eq (l : Nat) : generatePRData (l : Int) = some (lehmerBytes l) := by
  unfold generatePRData
  rw [if_neg (by omega)]
  simp only [Int.toNat_ofNat]
  rw [generatePRData_loop l l (Nat.le_refl l)]
  simp only [Nat.sub_self, List.replicate_zero, List.append_nil, lehmerBytes]
  congr 1
  apply List.map_congr_left
  intro i _
  rw [seedAfter_eq]

theorem lehmerBytes_take (l m : Nat) (h : m ≤ l) : (lehmerBytes l).take m = lehmerBytes m := by
  unfold lehmerBytes
  rw [← List.map_take, List.take_range, Nat.min_eq_left h]

/-- C19: for every length `l ≥ 0`, `generatePRData` returns `l` bytes, byte `i` being
`(48271^(i+1) mod 2147483647) mod 256`; the product `seed * 48271` stays below `2^64`, the
seed stays within `1..2147483646`, and the result for `m ≤ l` is the first `m` bytes of the
result for `l`. -/
theorem generatePRData_is_lehmer (l : Nat) :
    (∃ res, generatePRData (l : Int) = some res ∧ res.length = l ∧
        (∀ i, i < l → (res.getD i 0).val = 48271 ^ (i + 1) % 2147483647 % 256) ∧
        (∀ m, m ≤ l → generatePRData (m : Int) = some (res.take m))) ∧
      (∀ k, seedAfter k * 48271 < 2 ^ 64 ∧ 1 ≤ seedAfter k ∧ seedAfter k ≤ 2147483646) := by
  refine ⟨⟨lehmerBytes l, generatePRData_eq l, by simp [lehmerBytes], ?_, ?_⟩, ?_⟩
  · intro i hi
    simp [lehmerBytes, hi, toByte]
  · intro m hm
    rw [lehmerBytes_take l m hm]
    exact generatePRData_eq m
  · intro k
    have h := seedAfter_lt k
    exact ⟨seedAfter_no_wrap k, seedAfter_pos k, by omega⟩

/-! ## HTTP method and header validation -/

theorem tokenTable_eq_grammar (n : Nat) :
    (decide (n < 127) && isTokenTable n) =
      (decide (n ≤ 127) && !(decide (n ≤ 31) || decide (n = 127)) && !isSeparator n) := by
  by_cases h : n < 128
  · interval_cases n <;> rfl
  · have h1 : ¬ n < 127 := by omega
    have h2 : ¬ n ≤ 127 := by omega
    simp [h1, h2]

/-- The table of `httplex` accepts exactly the token characters of the grammar. -/
theorem IsTokenRune_eq_isTokenChar (c : Char) : IsTokenRune c = isTokenChar c :=
  tokenTable_eq_grammar c.toNat

theorem IndexFuncFrom_eq_neg_one (f : Char → Bool) (cs : List Char) (start : Nat) :
    IndexFuncFrom f cs start = -1 ↔ ∀ c ∈ cs, f c = false := by
  induction cs generalizing start with
  | nil => simp [IndexFuncFrom]
  | cons c cs ih =>
    unfold IndexFuncFrom
    by_cases h : f c = true
    · simp only [h, if_true, List.mem_cons, forall_eq_or_imp]
      constructor
      · intro e; omega
      · intro e; simp at e
    · have h2 : f c = false := by simpa using h
      simp only [h2, List.mem_cons, forall_eq_or_imp, true_and]
      exact ih _

theorem utf8ByteSize_pos_iff (m : String) : m.utf8ByteSize > 0 ↔ m ≠ "" := by
  cases m with
  | mk cs =>
    cases cs with
    | nil => simp [String.utf8ByteSize, String.utf8ByteSize.go]
    | cons c cs =>
      have hc := Char.utf8Size_pos c
      constructor
      · intro _ e
        have := congrArg String.data e
        simp at this
      · intro _
        simp only [String.utf8ByteSize, String.utf8ByteSize.go]
        omega

theorem validMethod_iff (m : String) :
    validMethod m = true ↔ m ≠ "" ∧ ∀ c ∈ m.data, isTokenChar c = true := by
  unfold validMethod IndexFunc
  rw [Bool.and_eq_true, decide_eq_true_eq, decide_eq_true_eq, utf8ByteSize_pos_iff,
    IndexFuncFrom_eq_neg_one]
  constructor
  · rintro ⟨h1, h2⟩
    refine ⟨h1, fun c hc => ?_⟩
    have := h2 c hc
    rw [← IsTokenRune_eq_isTokenChar]
    simpa [isNotToken] using this
  · rintro ⟨h1, h2⟩
    refine ⟨h1, fun c hc => ?_⟩
    have := h2 c hc
    rw [← IsTokenRune_eq_isTokenChar] at this
    simp [isNotToken, this]

/-- C17: `validMethod` implements the token grammar: it is true exactly for the non-empty
strings all of whose runes are token characters; the empty string is rejected, and so is
every string containing a control character, a separator, a space or a rune above 127. -/
theorem validMethod_implements_token (m : String) :
    (validMethod m = true ↔ m ≠ "" ∧ ∀ c ∈ m.data, isTokenChar c = true) ∧
      validMethod "" = false ∧
      ((∃ c ∈ m.data, c.toNat ≤ 31 ∨ c.toNat = 127 ∨ isSeparator c.toNat = true ∨
          c.toNat = 32 ∨ c.toNat > 127) → validMethod m = false) := by
  refine ⟨validMethod_iff m, by rfl, ?_⟩
  rintro ⟨c, hc, hbad⟩
  apply Bool.eq_false_iff.mpr
  intro hv
  have ht := ((validMethod_iff m).mp hv).2 c hc
  simp only [isTokenChar, Bool.and_eq_true, Bool.not_eq_true', Bool.or_eq_false_iff,
    decide_eq_true_eq, decide_eq_false_iff_not] at ht
  rcases hbad with h | h | h | h | h
  · exact ht.1.2.1 h
  · exact ht.1.2.2 h
  · rw [h] at ht; exact absurd ht.2 (by simp)
  · have hs : isSeparator c.toNat = true := by rw [h]; rfl
    rw [hs] at ht; exact absurd ht.2 (by simp)
  · omega

/-! ## Request validation in `RoundTrip` -/

theorem firstInvalidValue_eq_none (vv : List String) :
    firstInvalidValue vv = none ↔ ∀ v ∈ vv, ValidHeaderFieldValue v = true := by
  unfold firstInvalidValue
  rw [List.find?_eq_none]
  simp

theorem headerError_eq_none (h : List (String × List String)) :
    headerError h = none ↔
      ∀ kv ∈ h, ValidHeaderFieldName kv.1 = true ∧
        ∀ v ∈ kv.2, ValidHeaderFieldValue v = true := by
  induction h with
  | nil => simp [headerError]
  | cons kv rest ih =>
    obtain ⟨k, vv⟩ := kv
    unfold headerError
    by_cases hk : ValidHeaderFieldName k = true
    · simp only [hk, Bool.not_true, Bool.false_eq_true, if_false, List.mem_cons,
        forall_eq_or_imp, true_and]
      cases hv : firstInvalidValue vv with
      | none =>
        have := (firstInvalidValue_eq_none vv).mp hv
        simp only [ih]
        exact ⟨fun h2 => ⟨this, h2⟩, fun h2 => h2.2⟩
      | some v =>
        have hne : ¬ ∀ v ∈ vv, ValidHeaderFieldValue v = true := by
          intro hall
          have := (firstInvalidValue_eq_none vv).mpr hall
          rw [hv] at this
          cases this
        constructor
        · intro e; cases e
        · intro e; exact absurd e.1 hne
    · have hk2 : ValidHeaderFieldName k = false := by simpa using hk
      simp only [hk2, Bool.not_false, if_true, List.mem_cons, forall_eq_or_imp]
      constructor
      · intro e; cases e
      · intro e; simp at e

theorem headerError_some_iff (h : List (String × List String)) :
    (∃ e, headerError h = some e) ↔
      ∃ kv ∈ h, ValidHeaderFieldName kv.1 = false ∨
        ∃ v ∈ kv.2, ValidHeaderFieldValue v = false := by
  have hn := headerError_eq_none h
  constructor
  · rintro ⟨e, he⟩
    by_contra hc
    have : headerError h = none := by
      apply hn.mpr
      intro kv hkv
      constructor
      · by_contra h1
        exact hc ⟨kv, hkv, Or.inl (by simpa using h1)⟩
      · intro v hv
        by_contra h1
        exact hc ⟨kv, hkv, Or.inr ⟨v, hv, by simpa using h1⟩⟩
    rw [this] at he
    cases he
  · rintro ⟨kv, hkv, hbad⟩
    cases he : headerError h with
    | some e => exact ⟨e, rfl⟩
    | none =>
      have := hn.mp he kv hkv
      rcases hbad with h1 | ⟨v, hv, h1⟩
      · rw [this.1] at h1; cases h1
      · rw [this.2 v hv] at h1; cases h1

/-- The result of `RoundTrip` on a request that its checks let through. -/
theorem RoundTrip_accepts (aa : String → String → String) (hf : Request → String)
    (req : Request) (h : ¬ rejectedRequest req) :
    (RoundTrip aa hf req).1 = .client (aa "https" (hf req)) := by
  unfold rejectedRequest at h
  simp only [not_or] at h
  obtain ⟨h1, h2, h3, h4, h5, h6⟩ := h
  unfold RoundTrip
  cases hu : req.URL with
  | none => exact absurd hu h1
  | some u =>
    have hh : ¬ u.Host = "" := fun e => h2 ⟨u, hu, e⟩
    have hs : u.Scheme = "https" := by
      by_contra e
      exact h4 ⟨u, hu, e⟩
    cases hhd : req.Header with
    | none => exact absurd hhd h3
    | some hd =>
      have he : headerError hd = none := by
        cases hx : headerError hd with
        | none => rfl
        | some e =>
          exact absurd ⟨hd, hhd, (headerError_some_iff hd).mp ⟨e, hx⟩⟩ h5
      have hm : ¬ (req.Method ≠ "" ∧ ¬ (validMethod req.Method = true)) := by
        rintro ⟨m1, m2⟩
        exact h6 ⟨m1, by simpa using m2⟩
      simp only [hh, hs, he, hm, if_true, if_false]

/-- The result of `RoundTrip` on a request that one of its checks stops. -/
theorem RoundTrip_rejects (aa : String → String → String) (hf : Request → String)
    (req : Request) (h : rejectedRequest req) :
    ∃ e, (RoundTrip aa hf req).1 = .error e := by
  unfold RoundTrip
  cases hu : req.URL with
  | none => exact ⟨_, rfl⟩
  | some u =>
    by_cases hh : u.Host = ""
    · simp only [hh, if_true]; exact ⟨_, rfl⟩
    · cases hhd : req.Header with
      | none => simp only [hh, if_false]; exact ⟨_, rfl⟩
      | some hd =>
        by_cases hs : u.Scheme = "https"
        · cases hx : headerError hd with
          | some e => simp only [hh, hs, hx, if_true, if_false]; exact ⟨_, rfl⟩
          | none =>
            by_cases hm : req.Method ≠ "" ∧ ¬ (validMethod req.Method = true)
            · simp only [hh, hs, hx, if_true, if_false]
              rw [if_pos hm]
              exact ⟨_, rfl⟩
            · exfalso
              rcases h with h | ⟨u2, h, h2⟩ | h | ⟨u2, h, h2⟩ | ⟨h2, h, hbad⟩ | ⟨m1, m2⟩
              · rw [hu] at h; cases h
              · rw [hu] at h; cases h; exact hh h2
              · rw [hhd] at h; cases h
              · rw [hu] at h; cases h; exact h2 hs
              · rw [hhd] at h; cases h
                obtain ⟨e, he⟩ := (headerError_some_iff hd).mpr hbad
                rw [hx] at he; cases he
              · exact hm ⟨m1, by simp [m2]⟩
        · simp only [hh, hs, if_false]; exact ⟨_, rfl⟩

/-- C15: `RoundTrip` returns one of its own errors, without reaching the client lookup,
exactly when the URL is nil, the URL host is empty, the header map is nil, the scheme is
not `https`, some header field name or value is invalid, or the method is non-empty and
not a valid token; every other request, in particular one with an empty method and
otherwise valid fields, is handed to the client for its host. -/
theorem RoundTrip_rejects_iff (aa : String → String → String) (hf : Request → String)
    (req : Request) :
    ((∃ e, (RoundTrip aa hf req).1 = .error e) ↔ rejectedRequest req) ∧
      (¬ rejectedRequest req → (RoundTrip aa hf req).1 = .client (aa "https" (hf req))) ∧
      (∀ u h, req.URL = some u → u.Host ≠ "" → u.Scheme = "https" → req.Header = some h →
        (∀ kv ∈ h, ValidHeaderFieldName kv.1 = true ∧
          ∀ v ∈ kv.2, ValidHeaderFieldValue v = true) →
        req.Method = "" → (RoundTrip aa hf req).1 = .client (aa "https" (hf req))) := by
  refine ⟨⟨?_, RoundTrip_rejects aa hf req⟩, RoundTrip_accepts aa hf req, ?_⟩
  · rintro ⟨e, he⟩
    by_contra hc
    rw [RoundTrip_accepts aa hf req hc] at he
    cases he
  · intro u h hu hh hs hhd hv hm
    apply RoundTrip_accepts
    unfold rejectedRequest
    rintro (h1 | ⟨u2, h1, h2⟩ | h1 | ⟨u2, h1, h2⟩ | ⟨h2, h1, kv, hkv, hbad⟩ | ⟨m1, _⟩)
    · rw [hu] at h1; cases h1
    · rw [hu] at h1; cases h1; exact hh h2
    · rw [hhd] at h1; cases h1
    · rw [hu] at h1; cases h1; exact h2 hs
    · rw [hhd] at h1; cases h1
      have := hv kv hkv
      rcases hbad with h3 | ⟨v, hv2, h3⟩
      · rw [this.1] at h3; cases h3
      · rw [this.2 v hv2] at h3; cases h3
    · exact m1 hm

/-- C14 fails on the code: on an invalid header field name and on an invalid header field
value `RoundTrip` returns its error with the body not closed, while the sibling path for an
unsupported scheme closes it. -/
theorem RoundTrip_header_error_leaves_body_open (aa : String → String → String)
    (hf : Request → String) :
    RoundTrip aa hf requestBadName =
        (.error (.invalidHeaderFieldName "bad name"), requestBadName) ∧
      RoundTrip aa hf requestBadValue =
        (.error (.invalidHeaderFieldValue "v\n" "name"), requestBadValue) ∧
      requestBadName.Body = some { closeCalls := 0 } ∧
      requestBadValue.Body = some { closeCalls := 0 } ∧
      (RoundTrip aa hf requestBadScheme).2.Body = some { closeCalls := 1 } := by
  refine ⟨by rfl, by rfl, rfl, rfl, by rfl⟩

end QuicGo
